import Mathlib

/-!
Shallow embedding of `remote/endpoint_writer.go` (protoactor-go outbound
endpoint writer) and verification of the specification claims about it.

The embedding keeps the source structure: `addToLookup` and `addToPidLookup`
intern type names and actor references into per-batch tables (Go maps are
modelled as association lists), `sendEnvelopes` runs the assembly loop and
transmits one wire batch, `initializeInternal` performs the connect
handshake, the anonymous goroutine inside it is `monitorLoop`, and `Receive`
is the actor message dispatch, modelled as `receiveStep` over an explicit
environment describing the transport outcomes.
-/

namespace ProtoRemote

/-- The `actor.PID` reference: (address, id, requestId). -/
structure PID where
  address : String
  id : String
  requestId : Nat
deriving DecidableEq

/-- An opaque payload together with what the external serialization registry
returns for it.  `serOk = false` models a payload whose serialization fails. -/
structure Msg where
  typeName : String
  data : List Nat
  serOk : Bool
deriving DecidableEq

/-- Modelled from the spec: the external serialization registry
`serialize(payload, serializerId) -> (bytes, typeName) | Error` (section 6 of
the spec); the registry itself is not part of this source file. -/
def Serialize (m : Msg) (serializerId : Nat) : Option (List Nat × String) :=
  if m.serOk then some (m.data, m.typeName) else none

/-- One outbound delivery, `remoteDeliver`. -/
structure RemoteDeliver where
  header : Option (List (String × String))
  message : Msg
  target : Option PID
  sender : Option PID
deriving DecidableEq

/-- The `MessageHeader` of the wire protocol. -/
structure MessageHeader where
  headerData : List (String × String)
deriving DecidableEq

/-- The `MessageEnvelope` of the wire protocol, field for field. -/
structure MessageEnvelope where
  messageHeader : Option MessageHeader
  messageData : List Nat
  sender : Nat
  target : Nat
  typeId : Nat
  serializerId : Nat
  targetRequestId : Nat
  senderRequestId : Nat
deriving DecidableEq

/-- The `MessageBatch` of the wire protocol. -/
structure MessageBatch where
  typeNames : List String
  targets : List PID
  senders : List PID
  envelopes : List MessageEnvelope
deriving DecidableEq

/-- Go map lookup, on the association-list model of a `map[string]int32`. -/
def mapLookup : List (String × Nat) → String → Option Nat
  | [], _ => none
  | p :: m, k => if p.1 = k then some p.2 else mapLookup m k

/-- The function `addToLookup`: look a type name up in the table, inserting it with index
`len(m)` on a miss.  Returns the index and the updated map and array. -/
def addToLookup (m : List (String × Nat)) (name : String) (a : List String) :
    Nat × List (String × Nat) × List String :=
  match mapLookup m name with
  | some i => (i, m, a)
  | none => (m.length, m ++ [(name, m.length)], a ++ [name])

/-- The interning key the source builds: `pid.Address + "/" + pid.Id`. -/
def pidKey (p : PID) : String := p.address ++ "/" ++ p.id

/-- The `proto.Clone` plus `c.RequestId = 0` step of `addToPidLookup`. -/
def stripRequestId (p : PID) : PID := { p with requestId := 0 }

/-- The function `addToPidLookup`: a nil reference yields the sentinel 0; a real reference
is interned under `pidKey` with its request id stripped, and the returned
envelope index is the map value plus one. -/
def addToPidLookup (m : List (String × Nat)) (pid : Option PID) (arr : List PID) :
    Nat × List (String × Nat) × List PID :=
  match pid with
  | none => (0, m, arr)
  | some p =>
    match mapLookup m (pidKey p) with
    | some i => (i + 1, m, arr)
    | none => (m.length + 1, m ++ [(pidKey p, m.length)], arr ++ [stripRequestId p])

/-- One element of the `[]interface{}` batch handed to `sendEnvelopes`: either
an `EndpointTerminatedEvent` (pointer or value) or a `*remoteDeliver`. -/
inductive WriterMsg
  | terminated
  | deliver (rd : RemoteDeliver)
deriving DecidableEq

/-- The local state of the `sendEnvelopes` loop: the three map/array pairs and
the envelopes assembled so far. -/
structure LoopState where
  typeNames : List (String × Nat)
  typeNamesArr : List String
  targetNames : List (String × Nat)
  targetNamesArr : List PID
  senderNames : List (String × Nat)
  senderNamesArr : List PID
  envelopes : List MessageEnvelope
deriving DecidableEq

/-- How one pass over the batch ends: early return after `ctx.Stop(ctx.Self())`
on a terminated element, a `panic(err)` from `Serialize`, or completion. -/
inductive LoopResult
  | stopSelf
  | crashed
  | done (s : LoopState)
deriving DecidableEq

/-- The empty loop state (`make`d maps and zero-length arrays). -/
def initLoopState : LoopState := ⟨[], [], [], [], [], [], []⟩

/-- The header translation at the top of the loop body: a nil or empty
read-only header becomes a nil wire header. -/
def envelopeHeader (h : Option (List (String × String))) : Option MessageHeader :=
  match h with
  | none => none
  | some hd => if hd.length = 0 then none else some ⟨hd⟩

/-- The `targetRequestID` and `senderRequestID` computation: the request id of a present
reference, 0 for a nil one. -/
def optRequestId : Option PID → Nat
  | none => 0
  | some p => p.requestId

/-- One iteration of the `sendEnvelopes` loop body on a `*remoteDeliver`:
serialize, intern into the three tables, and append the envelope.  `none`
models the `panic(err)` on a serialization error. -/
def assembleStep (serializerID : Nat) (s : LoopState) (rd : RemoteDeliver) :
    Option LoopState :=
  match Serialize rd.message serializerID with
  | none => none
  | some bt =>
    let t := addToLookup s.typeNames bt.2 s.typeNamesArr
    let tg := addToPidLookup s.targetNames rd.target s.targetNamesArr
    let sd := addToPidLookup s.senderNames rd.sender s.senderNamesArr
    some ⟨t.2.1, t.2.2, tg.2.1, tg.2.2, sd.2.1, sd.2.2,
      s.envelopes ++ [⟨envelopeHeader rd.header, bt.1, sd.1, tg.1, t.1, serializerID,
        optRequestId rd.target, optRequestId rd.sender⟩]⟩

/-- The `for i, tmp := range msg` loop of `sendEnvelopes`: a terminated element
stops the writer and abandons the batch; otherwise each delivery is assembled
in order. -/
def assembleLoop (serializerID : Nat) : LoopState → List WriterMsg → LoopResult
  | s, [] => LoopResult.done s
  | _, WriterMsg.terminated :: _ => LoopResult.stopSelf
  | s, WriterMsg.deliver rd :: rest =>
    match assembleStep serializerID s rd with
    | none => LoopResult.crashed
    | some s' => assembleLoop serializerID s' rest

/-- The `MessageBatch` literal built after the loop. -/
def mkBatch (s : LoopState) : MessageBatch :=
  ⟨s.typeNamesArr, s.targetNamesArr, s.senderNamesArr, s.envelopes⟩

/-- The outcome of `sendEnvelopes`: early stop, serialization panic, a
successful `stream.Send`, or `ctx.Stash()` followed by `panic("restart it")`
when the send fails. -/
inductive SendOutcome
  | stopSelf
  | crashed
  | sent (b : MessageBatch)
  | stashCrash (b : MessageBatch)
deriving DecidableEq

/-- The function `sendEnvelopes`: run the loop with the zero-valued `serializerID` variable,
then transmit the batch; `sendOk` is whether `stream.Send` succeeds. -/
def sendEnvelopes (msg : List WriterMsg) (sendOk : Bool) : SendOutcome :=
  match assembleLoop 0 initLoopState msg with
  | LoopResult.stopSelf => SendOutcome.stopSelf
  | LoopResult.crashed => SendOutcome.crashed
  | LoopResult.done s =>
    if sendOk then SendOutcome.sent (mkBatch s) else SendOutcome.stashCrash (mkBatch s)

/-- The batch `sendEnvelopes` assembles and hands to `stream.Send`, when it
reaches the send at all. -/
def assemble (msg : List WriterMsg) : Option MessageBatch :=
  match sendEnvelopes msg true with
  | SendOutcome.sent b => some b
  | _ => none

/-- What one `stream.Recv()` in the liveness-monitor goroutine returns:
`io.EOF`, another transport error, or a successfully read message. -/
inductive ReadResult
  | eofErr
  | otherErr
  | msg
deriving DecidableEq

/-- Result of running the monitor goroutine on a list of read results:
the addresses of the published `EndpointTerminatedEvent`s, whether the
goroutine executed `return` (exited), and how many reads it performed. -/
structure MonitorResult where
  published : List String
  returned : Bool
  consumed : Nat
deriving DecidableEq

/-- The goroutine of `initializeInternal` lines 92 to 114, read for read.  On
`io.EOF` the `break` statement leaves only the `switch`, so the loop goes on to
the next read; on any other error it publishes a terminated event and returns;
on a successful read it publishes a terminated event and keeps looping.
`returned = false` means the loop is still running (blocked on another read)
when the given reads are exhausted. -/
def monitorLoop (address : String) : List ReadResult → MonitorResult
  | [] => ⟨[], false, 0⟩
  | ReadResult.eofErr :: rest =>
    let r := monitorLoop address rest
    ⟨r.published, r.returned, r.consumed + 1⟩
  | ReadResult.otherErr :: _ => ⟨[address], true, 1⟩
  | ReadResult.msg :: rest =>
    let r := monitorLoop address rest
    ⟨address :: r.published, r.returned, r.consumed + 1⟩

/-- The variant of the single handshake-response read. -/
inductive HandshakeResponse
  | connectResponse
  | otherVariant
deriving DecidableEq

/-- The environment of one writer incarnation: outcomes of the external
transport operations taken in `initializeInternal` and `sendEnvelopes`.
`recvResult = none` models a failing `stream.Recv()` on the handshake. -/
structure ConnectEnv where
  dialOk : Bool
  receiveStreamOk : Bool
  sendConnectRequestOk : Bool
  recvResult : Option HandshakeResponse
  batchSendOk : Bool
deriving DecidableEq

/-- The error `initializeInternal` returns, by failing step. -/
inductive ConnectError
  | dialError
  | receiveStreamError
  | sendConnectRequestError
  | recvError
  | invalidConnectResponse
deriving DecidableEq

/-- Events published on the actor system event stream. -/
inductive RemoteEvent
  | endpointConnected (address : String)
  | endpointTerminated (address : String)
deriving DecidableEq

/-- What `initializeInternal` did: its return value, the events its own thread
published, whether `state.conn` and `state.stream` were assigned, and whether
the monitor goroutine was spawned. -/
structure ConnectResult where
  result : Option ConnectError
  published : List RemoteEvent
  connStored : Bool
  streamStored : Bool
  monitorSpawned : Bool
deriving DecidableEq

/-- The function `initializeInternal`, step for step: dial, open the receive stream, send
the connect request, read one response, check its variant; only full success
publishes the connected event.  `state.conn` is assigned right after the dial
and `state.stream` right after the stream is opened, before later steps can
fail. -/
def initializeInternal (address : String) (env : ConnectEnv) : ConnectResult :=
  if env.dialOk = false then ⟨some ConnectError.dialError, [], false, false, false⟩
  else if env.receiveStreamOk = false then
    ⟨some ConnectError.receiveStreamError, [], true, false, false⟩
  else if env.sendConnectRequestOk = false then
    ⟨some ConnectError.sendConnectRequestError, [], true, true, false⟩
  else
    match env.recvResult with
    | none => ⟨some ConnectError.recvError, [], true, true, false⟩
    | some HandshakeResponse.otherVariant =>
      ⟨some ConnectError.invalidConnectResponse, [], true, true, false⟩
    | some HandshakeResponse.connectResponse =>
      ⟨none, [RemoteEvent.endpointConnected address], true, true, true⟩

/-- Whether every handshake step succeeds. -/
def connectOk (env : ConnectEnv) : Bool :=
  env.dialOk && env.receiveStreamOk && env.sendConnectRequestOk &&
    decide (env.recvResult = some HandshakeResponse.connectResponse)

/-- The messages `Receive` dispatches on. -/
inductive ActorMsg
  | started
  | stopped
  | restarting
  | endpointTerminatedMsg
  | batch (msgs : List WriterMsg)
  | systemAuto
  | unknown
deriving DecidableEq

/-- Externally visible effects of one `Receive` call. -/
inductive Effect
  | publish (e : RemoteEvent)
  | wireSend (b : MessageBatch)
  | stopSelf
  | stash (msgs : List WriterMsg)
  | crash
  | closeStream
  | closeConn
deriving DecidableEq

/-- The fields of `endpointWriter` that `Receive` dispatch depends on: whether
`state.conn` and `state.stream` are non-nil. -/
structure WriterState where
  hasConn : Bool
  hasStream : Bool
deriving DecidableEq

/-- The function `closeClientConn`: best-effort closes of the stream and the connection. -/
def closeEffects (s : WriterState) : List Effect :=
  (if s.hasStream then [Effect.closeStream] else []) ++
    (if s.hasConn then [Effect.closeConn] else [])

/-- The dispatch of `Receive`, one message: returns the new state, the effects, and whether the
call panicked (ending this incarnation and escalating to the supervisor).
A batch processed with a nil `state.stream` runs the assembly loop and then
panics on the nil `stream.Send` without stashing. -/
def receiveStep (address : String) (env : ConnectEnv) (s : WriterState) :
    ActorMsg → WriterState × List Effect × Bool
  | ActorMsg.started =>
    let r := initializeInternal address env
    match r.result with
    | some _ => (⟨r.connStored, r.streamStored⟩, [Effect.crash], true)
    | none => (⟨r.connStored, r.streamStored⟩, r.published.map Effect.publish, false)
  | ActorMsg.stopped => (s, closeEffects s, false)
  | ActorMsg.restarting => (s, closeEffects s, false)
  | ActorMsg.endpointTerminatedMsg => (s, [Effect.stopSelf], false)
  | ActorMsg.batch msgs =>
    if s.hasStream then
      match sendEnvelopes msgs env.batchSendOk with
      | SendOutcome.stopSelf => (s, [Effect.stopSelf], false)
      | SendOutcome.crashed => (s, [Effect.crash], true)
      | SendOutcome.sent b => (s, [Effect.wireSend b], false)
      | SendOutcome.stashCrash _ => (s, [Effect.stash msgs, Effect.crash], true)
    else
      match assembleLoop 0 initLoopState msgs with
      | LoopResult.stopSelf => (s, [Effect.stopSelf], false)
      | LoopResult.crashed => (s, [Effect.crash], true)
      | LoopResult.done _ => (s, [Effect.crash], true)
  | ActorMsg.systemAuto => (s, [], false)
  | ActorMsg.unknown => (s, [], false)

/-- Run one writer incarnation over a list of incoming messages; a panic ends
the incarnation (the supervisor then rebuilds it from scratch). -/
def runWriter (address : String) (env : ConnectEnv) :
    WriterState → List ActorMsg → WriterState × List Effect
  | s, [] => (s, [])
  | s, m :: ms =>
    match receiveStep address env s m with
    | (s', effs, true) => (s', effs)
    | (s', effs, false) =>
      let r := runWriter address env s' ms
      (r.1, effs ++ r.2)

/-- The fresh state of a writer incarnation: no connection, no stream. -/
def initWriterState : WriterState := ⟨false, false⟩

/-! ### Specification-side predicates used in the claim statements -/

/-- Insert a name at the end unless already present; one step of first-seen
deduplication. -/
def insert1 (a : List String) (n : String) : List String :=
  if n ∈ a then a else a ++ [n]

/-- The list of distinct names of a list in first-seen order. -/
def firstSeenDedup (names : List String) : List String :=
  names.foldl insert1 []

/-- Whether distinct (address, id) pairs in a list of references always get
distinct interning keys, i.e. the concatenation `address ++ "/" ++ id` does
not collide. -/
def keyInj (ps : List PID) : Bool :=
  ps.all (fun p => ps.all (fun q =>
    !(pidKey p == pidKey q) || (p.address == q.address && p.id == q.id)))

/-- Whether every delivery strictly before the first terminated element of a
batch serializes successfully (so the loop reaches the terminated element). -/
def okBefore : List WriterMsg → Bool
  | [] => true
  | WriterMsg.terminated :: _ => true
  | WriterMsg.deliver rd :: rest => rd.message.serOk && okBefore rest

/-- Well-formedness of a type-name map/array pair: the map is the position
index of the array, completely and soundly, and the array has no duplicates. -/
def strTableWF (m : List (String × Nat)) (a : List String) : Prop :=
  m.length = a.length ∧
  (∀ k j, mapLookup m k = some j → a[j]? = some k) ∧
  (∀ (j : Nat) k, a[j]? = some k → mapLookup m k = some j) ∧
  a.Nodup

/-- Well-formedness of a reference map/array pair: the map sends the interning
key of the entry at position `j` to `j`, completely and soundly, the array has
no duplicates, and every stored entry has its request id stripped. -/
def pidTableWF (m : List (String × Nat)) (arr : List PID) : Prop :=
  m.length = arr.length ∧
  (∀ k j, mapLookup m k = some j → ∃ q, arr[j]? = some q ∧ pidKey q = k) ∧
  (∀ (j : Nat) q, arr[j]? = some q → mapLookup m (pidKey q) = some j) ∧
  arr.Nodup ∧
  ∀ p ∈ arr, p.requestId = 0

/-- How an envelope index refers to a reference table: absent references get
the sentinel 0, present ones a nonzero index whose predecessor is a table
position holding an entry with the same interning key. -/
def pidIdxOk (arr : List PID) (opid : Option PID) (idx : Nat) : Prop :=
  match opid with
  | none => idx = 0
  | some p => idx ≠ 0 ∧ ∃ q, arr[idx - 1]? = some q ∧ pidKey q = pidKey p

/-- The envelope built for a delivery, relative to the three tables. -/
def envOk (tn : List String) (tgts sndrs : List PID) (rd : RemoteDeliver)
    (e : MessageEnvelope) : Prop :=
  e.messageHeader = envelopeHeader rd.header ∧
  e.messageData = rd.message.data ∧
  e.serializerId = 0 ∧
  e.targetRequestId = optRequestId rd.target ∧
  e.senderRequestId = optRequestId rd.sender ∧
  tn[e.typeId]? = some rd.message.typeName ∧
  pidIdxOk tgts rd.target e.target ∧
  pidIdxOk sndrs rd.sender e.sender

/-- Every table entry is the stripped form of a reference selected by `f` from
one of the processed deliveries. -/
def pidsFrom (f : RemoteDeliver → Option PID) (pre : List RemoteDeliver)
    (arr : List PID) : Prop :=
  ∀ q ∈ arr, ∃ rd ∈ pre, ∃ p, f rd = some p ∧ q = stripRequestId p

/-- The full loop invariant of `sendEnvelopes` after processing the deliveries
`pre`. -/
def AsmInv (pre : List RemoteDeliver) (s : LoopState) : Prop :=
  strTableWF s.typeNames s.typeNamesArr ∧
  pidTableWF s.targetNames s.targetNamesArr ∧
  pidTableWF s.senderNames s.senderNamesArr ∧
  s.typeNamesArr = firstSeenDedup (pre.map (fun rd => rd.message.typeName)) ∧
  pidsFrom (fun rd => rd.target) pre s.targetNamesArr ∧
  pidsFrom (fun rd => rd.sender) pre s.senderNamesArr ∧
  s.envelopes.length = pre.length ∧
  ∀ (i : Nat) rd e, pre[i]? = some rd → s.envelopes[i]? = some e →
    envOk s.typeNamesArr s.targetNamesArr s.senderNamesArr rd e

/-- Conclusion of the sentinel claim C2 for an input `ds` and its assembled
batch `b`: absent references get index 0, present ones a nonzero index whose
predecessor is the table position holding the stripped reference. -/
def sentinelConcl (ds : List RemoteDeliver) (b : MessageBatch) : Prop :=
  b.targets.Nodup ∧ b.senders.Nodup ∧
  b.envelopes.length = ds.length ∧
  ∀ (i : Nat) rd e, ds[i]? = some rd → b.envelopes[i]? = some e →
    (rd.sender = none → e.sender = 0) ∧
    (rd.target = none → e.target = 0) ∧
    (∀ p, rd.target = some p →
      e.target ≠ 0 ∧ b.targets[e.target - 1]? = some (stripRequestId p)) ∧
    (∀ p, rd.sender = some p →
      e.sender ≠ 0 ∧ b.senders[e.sender - 1]? = some (stripRequestId p))

/-- Conclusion of the interning claim C3: tables are duplicate-free and
request-id stripped, every envelope carries the original request ids, and
every present reference appears in its table exactly where its envelope index
(minus one) points. -/
def dedupConcl (ds : List RemoteDeliver) (b : MessageBatch) : Prop :=
  b.targets.Nodup ∧ b.senders.Nodup ∧
  (∀ p ∈ b.targets, p.requestId = 0) ∧
  (∀ p ∈ b.senders, p.requestId = 0) ∧
  ∀ (i : Nat) rd e, ds[i]? = some rd → b.envelopes[i]? = some e →
    e.targetRequestId = optRequestId rd.target ∧
    e.senderRequestId = optRequestId rd.sender ∧
    (∀ p, rd.target = some p →
      stripRequestId p ∈ b.targets ∧ e.target ≠ 0 ∧
      b.targets[e.target - 1]? = some (stripRequestId p)) ∧
    (∀ p, rd.sender = some p →
      stripRequestId p ∈ b.senders ∧ e.sender ≠ 0 ∧
      b.senders[e.sender - 1]? = some (stripRequestId p))

/-- Conclusion of the order claim C4: envelope `i` is built from delivery `i`
(same length, same order, fields taken from that delivery) and the type-name
table is the first-seen deduplication of the input type names with every
envelope type index resolving to its name. -/
def orderConcl (ds : List RemoteDeliver) (b : MessageBatch) : Prop :=
  b.envelopes.length = ds.length ∧
  b.typeNames = firstSeenDedup (ds.map (fun rd => rd.message.typeName)) ∧
  b.typeNames.Nodup ∧
  ∀ (i : Nat) rd e, ds[i]? = some rd → b.envelopes[i]? = some e →
    e.messageHeader = envelopeHeader rd.header ∧
    e.messageData = rd.message.data ∧
    e.targetRequestId = optRequestId rd.target ∧
    e.senderRequestId = optRequestId rd.sender ∧
    b.typeNames[e.typeId]? = some rd.message.typeName

/-- Conclusion of the termination-precedence claim C6 (amended): a batch
holding a terminated element is never transmitted, and when every delivery
before the first terminated element serializes, the component just requests
its own stop. -/
def termPrecConcl (address : String) (env : ConnectEnv) (s : WriterState)
    (msgs : List WriterMsg) : Prop :=
  (∀ b, Effect.wireSend b ∉ (receiveStep address env s (ActorMsg.batch msgs)).2.1) ∧
  (okBefore msgs = true →
    receiveStep address env s (ActorMsg.batch msgs) = (s, [Effect.stopSelf], false))

/-- Conclusion of the connect-atomicity claim C7: a wrong-variant handshake
response makes connect return an error, publish nothing, and leave no state a
sender could use; the connected event is published exactly when every step
succeeds. -/
def connectAtomConcl (address : String) (env : ConnectEnv) : Prop :=
  (initializeInternal address env).result.isSome = true ∧
  (initializeInternal address env).published = [] ∧
  (∀ msgs b, Effect.wireSend b ∉ (runWriter address env initWriterState msgs).2) ∧
  (∀ msgs a, Effect.publish (RemoteEvent.endpointConnected a) ∉
    (runWriter address env initWriterState msgs).2) ∧
  (∀ env' : ConnectEnv,
    (initializeInternal address env').result = none ↔ connectOk env' = true) ∧
  (∀ env' : ConnectEnv, (initializeInternal address env').published ≠ [] →
    (initializeInternal address env').result = none)

/-- Conclusion of the handshake-gating claim C8: with a failing handshake no
trace of the component ever emits a wire send, and a start message crashes the
incarnation immediately, before any further message is processed. -/
def gatingConcl (address : String) (env : ConnectEnv) (msgs : List ActorMsg) : Prop :=
  (∀ b, Effect.wireSend b ∉ (runWriter address env initWriterState msgs).2) ∧
  (∀ rest : List ActorMsg,
    runWriter address env initWriterState (ActorMsg.started :: rest) =
      (⟨(initializeInternal address env).connStored,
        (initializeInternal address env).streamStored⟩, [Effect.crash]))

/-! ### Concrete inputs for witnesses and counterexamples -/

/-- A delivery with a present target (request id 3) and an absent sender. -/
def w2rd : RemoteDeliver :=
  ⟨none, ⟨"TyA", [1, 2], true⟩, some ⟨"node:1", "actor-1", 3⟩, none⟩

/-- The batch `sendEnvelopes` assembles from `[w2rd]`. -/
def w2batch : MessageBatch :=
  ⟨["TyA"], [⟨"node:1", "actor-1", 0⟩], [],
    [⟨none, [1, 2], 0, 1, 0, 0, 3, 0⟩]⟩

/-- Scenario A of the spec: two deliveries to the same target identity with
request ids 5 and 9, same sender identity with request id 2 both times. -/
def w3d1 : RemoteDeliver :=
  ⟨none, ⟨"TyB", [7], true⟩, some ⟨"node:2", "actor-9", 5⟩, some ⟨"node:3", "actor-s", 2⟩⟩

/-- Second Scenario A delivery. -/
def w3d2 : RemoteDeliver :=
  ⟨none, ⟨"TyB", [8], true⟩, some ⟨"node:2", "actor-9", 9⟩, some ⟨"node:3", "actor-s", 2⟩⟩

/-- The batch `sendEnvelopes` assembles from `[w3d1, w3d2]`. -/
def w3batch : MessageBatch :=
  ⟨["TyB"], [⟨"node:2", "actor-9", 0⟩], [⟨"node:3", "actor-s", 0⟩],
    [⟨none, [7], 1, 1, 0, 0, 5, 2⟩, ⟨none, [8], 1, 1, 0, 0, 9, 2⟩]⟩

/-- Three deliveries with type names TyC, TyD, TyC, to exercise order
preservation and the type table. -/
def w4ds : List RemoteDeliver :=
  [⟨some [("k", "v")], ⟨"TyC", [1], true⟩, some ⟨"node:4", "a", 1⟩, none⟩,
   ⟨none, ⟨"TyD", [2], true⟩, some ⟨"node:4", "b", 0⟩, some ⟨"node:5", "c", 4⟩⟩,
   ⟨none, ⟨"TyC", [3], true⟩, none, none⟩]

/-- Deliveries whose targets are the distinct pairs ("n/k", "l") and
("n", "k/l"): both intern under the colliding key "n/k/l". -/
def cex2d1 : RemoteDeliver := ⟨none, ⟨"Ty", [0], true⟩, some ⟨"n/k", "l", 4⟩, none⟩

/-- Second delivery of the key-collision input for the sentinel claim. -/
def cex2d2 : RemoteDeliver := ⟨none, ⟨"Ty", [0], true⟩, some ⟨"n", "k/l", 7⟩, none⟩

/-- Deliveries whose targets are the distinct pairs ("u/v", "w") and
("u", "v/w"): both intern under th colliding key "u/v/w". -/
def cex3d1 : RemoteDeliver := ⟨none, ⟨"Tz", [0], true⟩, some ⟨"u/v", "w", 1⟩, none⟩

/-- Second delivery of the key-collision input for the dedup claim. -/
def cex3d2 : RemoteDeliver := ⟨none, ⟨"Tz", [0], true⟩, some ⟨"u", "v/w", 3⟩, none⟩

/-- A delivery whose payload fails to serialize. -/
def badRd : RemoteDeliver := ⟨none, ⟨"TyBad", [9], false⟩, some ⟨"node:6", "d", 0⟩, none⟩

/-- A delivery that serializes fine (used beside `badRd`). -/
def okRd : RemoteDeliver := ⟨none, ⟨"TyOk", [5], true⟩, some ⟨"node:7", "e", 2⟩, none⟩

/-- A batch whose terminated element follows a healthy delivery. -/
def w6msgs : List WriterMsg := [WriterMsg.deliver okRd, WriterMsg.terminated]

/-- An environment in which every transport operation succeeds. -/
def allOkEnv : ConnectEnv := ⟨true, true, true, some HandshakeResponse.connectResponse, true⟩

/-- An environment whose handshake response has the wrong variant. -/
def wrongVariantEnv : ConnectEnv := ⟨true, true, true, some HandshakeResponse.otherVariant, true⟩

/-- An environment in which the handshake response read fails (never arrives). -/
def noResponseEnv : ConnectEnv := ⟨true, true, true, none, true⟩

/-- An environment in which the handshake succeeds but batch sends fail. -/
def sendFailEnv : ConnectEnv := ⟨true, true, true, some HandshakeResponse.connectResponse, false⟩

/-! ### Helper lemmas about the map model and list indexing -/

theorem mapLookup_append_some (m1 m2 : List (String × Nat)) (k : String) (j : Nat)
    (h : mapLookup m1 k = some j) : mapLookup (m1 ++ m2) k = some j := by
  induction m1 with
  | nil => simp [mapLookup] at h
  | cons p t ih =>
    by_cases hc : p.1 = k
    · simp only [mapLookup, hc, if_pos] at h
      simpa [mapLookup, hc] using h
    · simp only [mapLookup, hc, if_neg, not_false_iff] at h
      simpa [mapLookup, hc] using ih h

theorem mapLookup_append_none (m1 m2 : List (String × Nat)) (k : String)
    (h : mapLookup m1 k = none) : mapLookup (m1 ++ m2) k = mapLookup m2 k := by
  induction m1 with
  | nil => simp [mapLookup]
  | cons p t ih =>
    by_cases hc : p.1 = k
    · simp [mapLookup, hc] at h
    · simp only [mapLookup, hc, if_neg, not_false_iff] at h
      simpa [mapLookup, hc] using ih h

theorem pidKey_strip (p : PID) : pidKey (stripRequestId p) = pidKey p := rfl

theorem keyInj_spec (ps : List PID) (h : keyInj ps = true) :
    ∀ p ∈ ps, ∀ q ∈ ps, pidKey p = pidKey q → p.address = q.address ∧ p.id = q.id := by
  intro p hp q hq hk
  have h1 := List.all_eq_true.mp h p hp
  have h2 := List.all_eq_true.mp h1 q hq
  simp only [Bool.or_eq_true, Bool.not_eq_true', beq_eq_false_iff_ne, ne_eq,
    Bool.and_eq_true, beq_iff_eq] at h2
  rcases h2 with h2 | h2
  · exact absurd hk h2
  · exact h2

theorem nodup_snoc {α : Type} (l : List α) (x : α) (hl : l.Nodup) (hx : x ∉ l) :
    (l ++ [x]).Nodup := by
  rw [List.nodup_append]
  refine ⟨hl, List.nodup_singleton x, ?_⟩
  intro a ha hax
  simp only [List.mem_singleton] at hax
  exact hx (hax ▸ ha)

/-! ### The liveness monitor: C1 and C5 -/

/-- Claim C1 (code bug): the spec says a read returning end-of-file makes the
monitor loop exit without publishing.  In the source the `break` inside the
`switch` leaves only the switch, never the `for` loop, so after an EOF read
the loop keeps reading: on the read sequence EOF-then-message the goroutine
performs both reads (consumed = 2), publishes a terminated event for the
second read, and has still not returned.  The claimed behavior would be
consumed = 1, no publish, loop exited. -/
theorem monitor_eof_read_does_not_exit_loop :
    monitorLoop "remote:1" [ReadResult.eofErr, ReadResult.msg] =
      ⟨["remote:1"], false, 2⟩ := rfl

/-- Claim C5 (code bug): after the peer closes its send side (a disconnect
message followed by end-of-file reads), the monitor publishes exactly one
terminated event for the message but, because the EOF case only breaks the
switch, never exits the loop: it keeps consuming EOF reads with
`returned = false`.  The spec says it publishes exactly one event and exits. -/
theorem monitor_peer_close_publishes_once_but_never_exits :
    monitorLoop "remote:2" [ReadResult.msg, ReadResult.eofErr, ReadResult.eofErr] =
      ⟨["remote:2"], false, 3⟩ := rfl

/-! ### Key-collision counterexamples for C2 and C3 -/

/-- Counterexample to claim C2 as stated: the second delivery has the present
target ("n", "k/l") yet its envelope carries index 1, whose table position 0
holds the different reference ("n/k", "l"): subtracting 1 from the nonzero
index does not yield a position holding that reference, because both pairs
intern under the colliding key "n/k/l". -/
theorem sentinel_resolution_fails_on_key_collision :
    (assemble [WriterMsg.deliver cex2d1, WriterMsg.deliver cex2d2]).map
        (fun b => (b.targets, b.envelopes.map (fun e => e.target))) =
      some ([⟨"n/k", "l", 0⟩], [1, 1]) ∧
    stripRequestId ⟨"n", "k/l", 7⟩ ≠ (⟨"n/k", "l", 0⟩ : PID) := by
  exact ⟨rfl, by decide⟩

/-- Counterexample to claim C3 as stated: the distinct (address, local-id)
pairs ("u/v", "w") and ("u", "v/w") are targets of two deliveries, yet the
target table contains a single entry, so the second pair does not appear in
its table at all: deduplication is by the concatenated key "u/v/w", not by
the pair. -/
theorem dedup_fails_on_key_collision :
    (assemble [WriterMsg.deliver cex3d1, WriterMsg.deliver cex3d2]).map
        (fun b => b.targets) = some [⟨"u/v", "w", 0⟩] ∧
    stripRequestId ⟨"u", "v/w", 3⟩ ∉ [(⟨"u/v", "w", 0⟩ : PID)] := by
  exact ⟨rfl, by decide⟩

/-- Counterexample to claim C6 as stated: a batch holding a failing delivery
before its terminated element makes `sendEnvelopes` panic on serialization
before it reaches the terminated element, so the component crashes without
requesting its own stop; processing of elements before the terminated one is
not skipped. -/
theorem termination_stop_preempted_by_serialize_failure :
    receiveStep "a" allOkEnv ⟨true, true⟩
        (ActorMsg.batch [WriterMsg.deliver badRd, WriterMsg.terminated]) =
      (⟨true, true⟩, [Effect.crash], true) ∧
    Effect.stopSelf ∉ [Effect.crash] := by
  exact ⟨rfl, by decide⟩

/-! ### Interning table lemmas -/

theorem getElem?_some_lt {α : Type} {l : List α} {j : Nat} {x : α}
    (h : l[j]? = some x) : j < l.length :=
  (List.getElem?_eq_some.mp h).1

theorem getElem?_snoc_lt {α : Type} {l : List α} {x : α} {j : Nat} {y : α}
    (h : l[j]? = some y) : (l ++ [x])[j]? = some y := by
  rw [List.getElem?_append_left (getElem?_some_lt h)]
  exact h

theorem getElem?_snoc_cases {α : Type} {l : List α} {x : α} {j : Nat} {y : α}
    (h : (l ++ [x])[j]? = some y) : l[j]? = some y ∨ (j = l.length ∧ y = x) := by
  rcases Nat.lt_or_ge j l.length with hj | hj
  · left
    rw [List.getElem?_append_left hj] at h
    exact h
  · right
    have hlt : j < l.length + 1 := by
      have := getElem?_some_lt h
      simpa using this
    have hje : j = l.length := Nat.le_antisymm (Nat.lt_succ_iff.mp hlt) hj
    subst hje
    rw [List.getElem?_concat_length] at h
    exact ⟨rfl, (Option.some.inj h).symm⟩

theorem strTableWF_insert (m : List (String × Nat)) (a : List String) (name : String)
    (h : strTableWF m a) (hl : mapLookup m name = none) :
    strTableWF (m ++ [(name, m.length)]) (a ++ [name]) := by
  obtain ⟨hlen, hsound, hcomp, hnd⟩ := h
  have hnmem : name ∉ a := by
    intro hmem
    obtain ⟨j, hj⟩ := List.getElem?_of_mem hmem
    have := hcomp j name hj
    rw [hl] at this
    exact Option.noConfusion this
  refine ⟨by simp [hlen], ?_, ?_, nodup_snoc a name hnd hnmem⟩
  · intro k j hk
    rcases hmk : mapLookup m k with _ | j0
    · rw [mapLookup_append_none m _ k hmk] at hk
      by_cases hkn : name = k
      · subst hkn
        simp only [mapLookup, if_pos rfl] at hk
        obtain rfl : m.length = j := Option.some.inj hk
        rw [hlen]
        exact List.getElem?_concat_length a name
      · simp [mapLookup, hkn] at hk
    · have hap := mapLookup_append_some m [(name, m.length)] k j0 hmk
      rw [hap] at hk
      obtain rfl : j0 = j := Option.some.inj hk
      exact getElem?_snoc_lt (hsound k j0 hmk)
  · intro j k hj
    rcases getElem?_snoc_cases hj with hold | ⟨rfl, rfl⟩
    · exact mapLookup_append_some m _ k j (hcomp j k hold)
    · rw [mapLookup_append_none m _ _ hl]
      simp [mapLookup, hlen]

theorem pidTableWF_insert (m : List (String × Nat)) (arr : List PID) (p : PID)
    (h : pidTableWF m arr) (hl : mapLookup m (pidKey p) = none) :
    pidTableWF (m ++ [(pidKey p, m.length)]) (arr ++ [stripRequestId p]) := by
  obtain ⟨hlen, hsound, hcomp, hnd, hstr⟩ := h
  have hnmem : stripRequestId p ∉ arr := by
    intro hmem
    obtain ⟨j, hj⟩ := List.getElem?_of_mem hmem
    have := hcomp j _ hj
    rw [pidKey_strip, hl] at this
    exact Option.noConfusion this
  refine ⟨by simp [hlen], ?_, ?_, nodup_snoc arr _ hnd hnmem, ?_⟩
  · intro k j hk
    rcases hmk : mapLookup m k with _ | j0
    · rw [mapLookup_append_none m _ k hmk] at hk
      by_cases hkn : pidKey p = k
      · subst hkn
        simp only [mapLookup, if_pos rfl] at hk
        obtain rfl : m.length = j := Option.some.inj hk
        refine ⟨stripRequestId p, ?_, pidKey_strip p⟩
        rw [hlen]
        exact List.getElem?_concat_length arr _
      · simp [mapLookup, hkn] at hk
    · have hap := mapLookup_append_some m [(pidKey p, m.length)] k j0 hmk
      rw [hap] at hk
      obtain rfl : j0 = j := Option.some.inj hk
      obtain ⟨q, hq, hqk⟩ := hsound k j0 hmk
      exact ⟨q, getElem?_snoc_lt hq, hqk⟩
  · intro j q hj
    rcases getElem?_snoc_cases hj with hold | ⟨rfl, rfl⟩
    · exact mapLookup_append_some m _ _ j (hcomp j q hold)
    · rw [pidKey_strip, mapLookup_append_none m _ _ hl]
      simp [mapLookup, hlen]
  · intro q hq
    rcases List.mem_append.mp hq with hq | hq
    · exact hstr q hq
    · simp only [List.mem_singleton] at hq
      subst hq
      rfl

theorem addToLookup_spec (m : List (String × Nat)) (name : String) (a : List String)
    (h : strTableWF m a) :
    strTableWF (addToLookup m name a).2.1 (addToLookup m name a).2.2 ∧
    (addToLookup m name a).2.2[(addToLookup m name a).1]? = some name ∧
    (∀ (j : Nat) x, a[j]? = some x → (addToLookup m name a).2.2[j]? = some x) ∧
    (addToLookup m name a).2.2 = insert1 a name := by
  rcases hl : mapLookup m name with _ | j
  · have hnmem : name ∉ a := by
      intro hmem
      obtain ⟨j, hj⟩ := List.getElem?_of_mem hmem
      have := h.2.2.1 j name hj
      rw [hl] at this
      exact Option.noConfusion this
    simp only [addToLookup, hl]
    refine ⟨strTableWF_insert m a name h hl, ?_, ?_, ?_⟩
    · rw [h.1]
      exact List.getElem?_concat_length a name
    · intro j x hx
      exact getElem?_snoc_lt hx
    · simp [insert1, hnmem]
  · simp only [addToLookup, hl]
    have hj := h.2.1 name j hl
    have hmem : name ∈ a := List.getElem?_mem hj
    exact ⟨h, hj, fun j x hx => hx, by simp [insert1, hmem]⟩

theorem addToPidLookup_spec (m : List (String × Nat)) (opid : Option PID) (arr : List PID)
    (h : pidTableWF m arr) :
    pidTableWF (addToPidLookup m opid arr).2.1 (addToPidLookup m opid arr).2.2 ∧
    pidIdxOk (addToPidLookup m opid arr).2.2 opid (addToPidLookup m opid arr).1 ∧
    (∀ (j : Nat) q, arr[j]? = some q → (addToPidLookup m opid arr).2.2[j]? = some q) ∧
    (∀ q ∈ (addToPidLookup m opid arr).2.2,
      q ∈ arr ∨ ∃ p, opid = some p ∧ q = stripRequestId p) := by
  rcases opid with _ | p
  · exact ⟨h, rfl, fun j q hq => hq, fun q hq => Or.inl hq⟩
  · rcases hl : mapLookup m (pidKey p) with _ | i
    · simp only [addToPidLookup, hl]
      refine ⟨pidTableWF_insert m arr p h hl, ?_, ?_, ?_⟩
      · refine ⟨Nat.succ_ne_zero _, stripRequestId p, ?_, pidKey_strip p⟩
        simp only [Nat.add_sub_cancel]
        rw [h.1]
        exact List.getElem?_concat_length arr _
      · intro j q hq
        exact getElem?_snoc_lt hq
      · intro q hq
        rcases List.mem_append.mp hq with hq | hq
        · exact Or.inl hq
        · simp only [List.mem_singleton] at hq
          exact Or.inr ⟨p, rfl, hq⟩
    · simp only [addToPidLookup, hl]
      obtain ⟨q, hq, hqk⟩ := h.2.1 _ i hl
      refine ⟨h, ⟨Nat.succ_ne_zero _, q, ?_, hqk⟩, fun j q hq => hq, fun q hq => Or.inl hq⟩
      simpa using hq

/-! ### The assembly loop invariant -/

theorem pidIdxOk_mono (arr arr' : List PID) (opid : Option PID) (idx : Nat)
    (hext : ∀ (j : Nat) q, arr[j]? = some q → arr'[j]? = some q)
    (h : pidIdxOk arr opid idx) : pidIdxOk arr' opid idx := by
  rcases opid with _ | p
  · exact h
  · obtain ⟨hne, q, hq, hk⟩ := h
    exact ⟨hne, q, hext _ _ hq, hk⟩

theorem envOk_mono (tn tn' : List String) (tg tg' sd sd' : List PID)
    (rd : RemoteDeliver) (e : MessageEnvelope)
    (htn : ∀ (j : Nat) x, tn[j]? = some x → tn'[j]? = some x)
    (htg : ∀ (j : Nat) q, tg[j]? = some q → tg'[j]? = some q)
    (hsd : ∀ (j : Nat) q, sd[j]? = some q → sd'[j]? = some q)
    (h : envOk tn tg sd rd e) : envOk tn' tg' sd' rd e := by
  obtain ⟨h1, h2, h3, h4, h5, h6, h7, h8⟩ := h
  exact ⟨h1, h2, h3, h4, h5, htn _ _ h6, pidIdxOk_mono tg tg' _ _ htg h7,
    pidIdxOk_mono sd sd' _ _ hsd h8⟩

theorem assembleStep_ok (pre : List RemoteDeliver) (s : LoopState) (rd : RemoteDeliver)
    (hInv : AsmInv pre s) (hok : rd.message.serOk = true) :
    ∃ s', assembleStep 0 s rd = some s' ∧ AsmInv (pre ++ [rd]) s' := by
  obtain ⟨htw, htgw, hsdw, hfsd, hfromT, hfromS, hlen, henv⟩ := hInv
  have hser : Serialize rd.message 0 = some (rd.message.data, rd.message.typeName) := by
    simp [Serialize, hok]
  obtain ⟨htw', htid, htext, hins⟩ :=
    addToLookup_spec s.typeNames rd.message.typeName s.typeNamesArr htw
  obtain ⟨htgw', htgidx, htgext, htgfrom⟩ :=
    addToPidLookup_spec s.targetNames rd.target s.targetNamesArr htgw
  obtain ⟨hsdw', hsdidx, hsdext, hsdfrom⟩ :=
    addToPidLookup_spec s.senderNames rd.sender s.senderNamesArr hsdw
  have hstep : assembleStep 0 s rd = some
      ⟨(addToLookup s.typeNames rd.message.typeName s.typeNamesArr).2.1,
       (addToLookup s.typeNames rd.message.typeName s.typeNamesArr).2.2,
       (addToPidLookup s.targetNames rd.target s.targetNamesArr).2.1,
       (addToPidLookup s.targetNames rd.target s.targetNamesArr).2.2,
       (addToPidLookup s.senderNames rd.sender s.senderNamesArr).2.1,
       (addToPidLookup s.senderNames rd.sender s.senderNamesArr).2.2,
       s.envelopes ++ [⟨envelopeHeader rd.header, rd.message.data,
         (addToPidLookup s.senderNames rd.sender s.senderNamesArr).1,
         (addToPidLookup s.targetNames rd.target s.targetNamesArr).1,
         (addToLookup s.typeNames rd.message.typeName s.typeNamesArr).1, 0,
         optRequestId rd.target, optRequestId rd.sender⟩]⟩ := by
    simp only [assembleStep, hser]
  refine ⟨_, hstep, htw', htgw', hsdw', ?_, ?_, ?_, ?_, ?_⟩
  · rw [hins, hfsd]
    simp [firstSeenDedup, List.foldl_append]
  · intro q hq
    rcases htgfrom q hq with hq | ⟨p, hp, hqs⟩
    · obtain ⟨rd0, hrd0, p0, hp0, hq0⟩ := hfromT q hq
      exact ⟨rd0, List.mem_append_left _ hrd0, p0, hp0, hq0⟩
    · exact ⟨rd, List.mem_append_right _ (List.mem_singleton_self rd), p, hp, hqs⟩
  · intro q hq
    rcases hsdfrom q hq with hq | ⟨p, hp, hqs⟩
    · obtain ⟨rd0, hrd0, p0, hp0, hq0⟩ := hfromS q hq
      exact ⟨rd0, List.mem_append_left _ hrd0, p0, hp0, hq0⟩
    · exact ⟨rd, List.mem_append_right _ (List.mem_singleton_self rd), p, hp, hqs⟩
  · simp [hlen]
  · intro i rd0 e0 hrd0 he0
    rcases getElem?_snoc_cases he0 with hold | ⟨hje, hee⟩
    · have hilt : i < pre.length := by
        rw [← hlen]
        exact getElem?_some_lt hold
      rw [List.getElem?_append_left hilt] at hrd0
      exact envOk_mono _ _ _ _ _ _ rd0 e0 htext htgext hsdext (henv i rd0 e0 hrd0 hold)
    · subst hee
      have hje' : i = pre.length := by rw [hje, hlen]
      subst hje'
      rw [List.getElem?_concat_length] at hrd0
      obtain rfl : rd = rd0 := Option.some.inj hrd0
      exact ⟨rfl, rfl, rfl, rfl, rfl, htid, htgidx, hsdidx⟩

theorem strTableWF_nil : strTableWF [] [] := by
  refine ⟨rfl, ?_, ?_, List.nodup_nil⟩
  · intro k j h
    simp [mapLookup] at h
  · intro j k h
    simp at h

theorem pidTableWF_nil : pidTableWF [] [] := by
  refine ⟨rfl, ?_, ?_, List.nodup_nil, ?_⟩
  · intro k j h
    simp [mapLookup] at h
  · intro j q h
    simp at h
  · intro p hp
    simp at hp

theorem AsmInv_init : AsmInv [] initLoopState := by
  refine ⟨strTableWF_nil, pidTableWF_nil, pidTableWF_nil, rfl, ?_, ?_, rfl, ?_⟩
  · intro q hq
    simp [initLoopState] at hq
  · intro q hq
    simp [initLoopState] at hq
  · intro i rd e h1 h2
    simp at h1

theorem assembleLoop_done_inv (msgs : List WriterMsg) :
    ∀ (pre : List RemoteDeliver) (s s' : LoopState),
      AsmInv pre s → assembleLoop 0 s msgs = LoopResult.done s' →
      ∃ ds, msgs = List.map WriterMsg.deliver ds ∧ AsmInv (pre ++ ds) s' := by
  induction msgs with
  | nil =>
    intro pre s s' hInv h
    simp only [assembleLoop, LoopResult.done.injEq] at h
    subst h
    exact ⟨[], rfl, by simpa using hInv⟩
  | cons m rest ih =>
    intro pre s s' hInv h
    cases m with
    | terminated => simp [assembleLoop] at h
    | deliver rd =>
      rcases hok : rd.message.serOk with _ | _
      · have hstep : assembleStep 0 s rd = none := by
          simp [assembleStep, Serialize, hok]
        simp [assembleLoop, hstep] at h
      · obtain ⟨s1, hstep, hInv1⟩ := assembleStep_ok pre s rd hInv hok
        simp only [assembleLoop, hstep] at h
        obtain ⟨ds, rfl, hInv'⟩ := ih (pre ++ [rd]) s1 s' hInv1 h
        refine ⟨rd :: ds, rfl, ?_⟩
        rw [List.append_assoc] at hInv'
        simpa using hInv'

theorem assembleLoop_done_of_ok (ds : List RemoteDeliver) :
    ∀ s : LoopState, (∀ rd ∈ ds, rd.message.serOk = true) →
      ∃ s', assembleLoop 0 s (List.map WriterMsg.deliver ds) = LoopResult.done s' := by
  induction ds with
  | nil =>
    intro s _
    exact ⟨s, rfl⟩
  | cons rd rest ih =>
    intro s hok
    have hser : Serialize rd.message 0 = some (rd.message.data, rd.message.typeName) := by
      simp [Serialize, hok rd (by simp)]
    rcases hstep : assembleStep 0 s rd with _ | s1
    · exfalso
      simp [assembleStep, hser] at hstep
    · obtain ⟨s'', h''⟩ := ih s1 (fun r hr => hok r (List.mem_cons_of_mem _ hr))
      exact ⟨s'', by simp only [List.map_cons, assembleLoop, hstep, h'']⟩

theorem assemble_some_inv (msg : List WriterMsg) (b : MessageBatch)
    (h : assemble msg = some b) :
    ∃ ds s', msg = List.map WriterMsg.deliver ds ∧ AsmInv ds s' ∧ b = mkBatch s' := by
  rcases hl : assembleLoop 0 initLoopState msg with _ | _ | s
  · simp [assemble, sendEnvelopes, hl] at h
  · simp [assemble, sendEnvelopes, hl] at h
  · simp only [assemble, sendEnvelopes, hl, if_true] at h
    obtain ⟨ds, hmsg, hInv⟩ := assembleLoop_done_inv msg [] initLoopState s AsmInv_init hl
    exact ⟨ds, s, hmsg, by simpa using hInv, (Option.some.inj h).symm⟩

theorem assemble_isSome_of_ok (ds : List RemoteDeliver)
    (hok : ∀ rd ∈ ds, rd.message.serOk = true) :
    ∃ b, assemble (List.map WriterMsg.deliver ds) = some b := by
  obtain ⟨s', hl⟩ := assembleLoop_done_of_ok ds initLoopState hok
  exact ⟨mkBatch s', by simp [assemble, sendEnvelopes, hl]⟩

theorem map_deliver_inj : ∀ (ds ds' : List RemoteDeliver),
    List.map WriterMsg.deliver ds = List.map WriterMsg.deliver ds' → ds = ds' := by
  intro ds
  induction ds with
  | nil =>
    intro ds' h
    cases ds' with
    | nil => rfl
    | cons a t => simp at h
  | cons a t ih =>
    intro ds' h
    cases ds' with
    | nil => simp at h
    | cons b t' =>
      simp only [List.map_cons, List.cons.injEq, WriterMsg.deliver.injEq] at h
      rw [h.1, ih t' h.2]

theorem pid_pair_resolve (ds : List RemoteDeliver) (arr : List PID)
    (f : RemoteDeliver → Option PID)
    (hfrom : pidsFrom f ds arr)
    (hinj : keyInj (ds.filterMap f) = true)
    (rd : RemoteDeliver) (hrd : rd ∈ ds) (p : PID) (hp : f rd = some p)
    (idx : Nat) (hidx : pidIdxOk arr (some p) idx) :
    idx ≠ 0 ∧ arr[idx - 1]? = some (stripRequestId p) := by
  obtain ⟨hne, q, hq, hk⟩ := hidx
  have hqmem : q ∈ arr := List.getElem?_mem hq
  obtain ⟨rd0, hrd0, p0, hp0, hq0⟩ := hfrom q hqmem
  have hp0mem : p0 ∈ ds.filterMap f := List.mem_filterMap.mpr ⟨rd0, hrd0, hp0⟩
  have hpmem : p ∈ ds.filterMap f := List.mem_filterMap.mpr ⟨rd, hrd, hp⟩
  have hkey : pidKey p0 = pidKey p := by
    rw [← pidKey_strip p0, ← hq0]
    exact hk
  obtain ⟨ha, hi⟩ := keyInj_spec _ hinj p0 hp0mem p hpmem hkey
  have hse : stripRequestId p0 = stripRequestId p := by
    simp [stripRequestId, ha, hi]
  rw [hq0, hse] at hq
  exact ⟨hne, hq⟩

/-! ### Claims C2, C3, C4 and C10 about the envelope assembler -/

/-- Claim C2 (amended with the proviso that distinct (address, id) pairs of
the input have distinct concatenated keys): the assembler assigns no real
reference the index 0, an absent sender or target yields index 0, and every
present reference gets a nonzero index whose predecessor is a valid table
position holding that reference with its request id stripped. -/
theorem envelope_sentinel_indices (ds : List RemoteDeliver) (b : MessageBatch)
    (hinjT : keyInj (ds.filterMap (fun rd => rd.target)) = true)
    (hinjS : keyInj (ds.filterMap (fun rd => rd.sender)) = true)
    (hb : assemble (List.map WriterMsg.deliver ds) = some b) :
    sentinelConcl ds b := by
  obtain ⟨ds', s', hmsg, hInv, hbe⟩ := assemble_some_inv _ b hb
  obtain rfl : ds = ds' := map_deliver_inj _ _ hmsg
  subst hbe
  obtain ⟨htw, htgw, hsdw, hfsd, hfromT, hfromS, hlen, henv⟩ := hInv
  refine ⟨htgw.2.2.2.1, hsdw.2.2.2.1, by simpa [mkBatch] using hlen, ?_⟩
  intro i rd e hrd he
  have he' : s'.envelopes[i]? = some e := by simpa [mkBatch] using he
  obtain ⟨_, _, _, _, _, _, h7, h8⟩ := henv i rd e hrd he'
  have hrdmem : rd ∈ ds := List.getElem?_mem hrd
  refine ⟨?_, ?_, ?_, ?_⟩
  · intro hs
    rw [hs] at h8
    exact h8
  · intro ht
    rw [ht] at h7
    exact h7
  · intro p hp
    rw [hp] at h7
    have := pid_pair_resolve ds s'.targetNamesArr (fun rd => rd.target)
      hfromT hinjT rd hrdmem p hp e.target h7
    simpa [mkBatch] using this
  · intro p hp
    rw [hp] at h8
    have := pid_pair_resolve ds s'.senderNamesArr (fun rd => rd.sender)
      hfromS hinjS rd hrdmem p hp e.sender h8
    simpa [mkBatch] using this

/-- Witness for C2 at the concrete input `[w2rd]` (absent sender, present
target with request id 3). -/
theorem envelope_sentinel_indices_witness :
    keyInj ([w2rd].filterMap (fun rd => rd.target)) = true ∧
    keyInj ([w2rd].filterMap (fun rd => rd.sender)) = true ∧
    assemble (List.map WriterMsg.deliver [w2rd]) = some w2batch ∧
    sentinelConcl [w2rd] w2batch :=
  ⟨by decide, by decide, by decide,
    envelope_sentinel_indices [w2rd] w2batch (by decide) (by decide) (by decide)⟩

/-- Claim C3 (amended with the same key-distinctness proviso as C2): each
distinct reference appears exactly once in its table with request id
stripped, envelope indices resolve to that entry after the offset-by-one
adjustment, and the original request ids ride in the envelope fields. -/
theorem interning_dedup (ds : List RemoteDeliver) (b : MessageBatch)
    (hinjT : keyInj (ds.filterMap (fun rd => rd.target)) = true)
    (hinjS : keyInj (ds.filterMap (fun rd => rd.sender)) = true)
    (hb : assemble (List.map WriterMsg.deliver ds) = some b) :
    dedupConcl ds b := by
  obtain ⟨ds', s', hmsg, hInv, hbe⟩ := assemble_some_inv _ b hb
  obtain rfl : ds = ds' := map_deliver_inj _ _ hmsg
  subst hbe
  obtain ⟨htw, htgw, hsdw, hfsd, hfromT, hfromS, hlen, henv⟩ := hInv
  refine ⟨htgw.2.2.2.1, hsdw.2.2.2.1, htgw.2.2.2.2, hsdw.2.2.2.2, ?_⟩
  intro i rd e hrd he
  have he' : s'.envelopes[i]? = some e := by simpa [mkBatch] using he
  obtain ⟨_, _, _, h4, h5, _, h7, h8⟩ := henv i rd e hrd he'
  have hrdmem : rd ∈ ds := List.getElem?_mem hrd
  refine ⟨h4, h5, ?_, ?_⟩
  · intro p hp
    rw [hp] at h7
    obtain ⟨hne, hres⟩ := pid_pair_resolve ds s'.targetNamesArr (fun rd => rd.target)
      hfromT hinjT rd hrdmem p hp e.target h7
    exact ⟨List.getElem?_mem hres, hne, hres⟩
  · intro p hp
    rw [hp] at h8
    obtain ⟨hne, hres⟩ := pid_pair_resolve ds s'.senderNamesArr (fun rd => rd.sender)
      hfromS hinjS rd hrdmem p hp e.sender h8
    exact ⟨List.getElem?_mem hres, hne, hres⟩

/-- Witness for C3 at Scenario A of the spec: same target identity with
request ids 5 and 9, one shared table entry, two request id values. -/
theorem interning_dedup_witness :
    keyInj ([w3d1, w3d2].filterMap (fun rd => rd.target)) = true ∧
    assemble (List.map WriterMsg.deliver [w3d1, w3d2]) = some w3batch ∧
    w3batch.targets.length = 1 ∧
    w3batch.envelopes.map (fun e => e.targetRequestId) = [5, 9] ∧
    w3batch.envelopes.map (fun e => e.target) = [1, 1] ∧
    dedupConcl [w3d1, w3d2] w3batch :=
  ⟨by decide, by decide, rfl, rfl, rfl,
    interning_dedup [w3d1, w3d2] w3batch (by decide) (by decide) (by decide)⟩

/-- Claim C4: for a terminated-free input whose payloads all serialize, the
assembled batch exists, its envelopes are in input order one for one, and the
type table is the first-seen deduplication of the type names with resolving
indices. -/
theorem envelope_order_and_type_table (ds : List RemoteDeliver)
    (hok : ds.all (fun rd => rd.message.serOk) = true) :
    (∃ b, assemble (List.map WriterMsg.deliver ds) = some b) ∧
    ∀ b, assemble (List.map WriterMsg.deliver ds) = some b → orderConcl ds b := by
  refine ⟨assemble_isSome_of_ok ds (List.all_eq_true.mp hok), ?_⟩
  intro b hb
  obtain ⟨ds', s', hmsg, hInv, hbe⟩ := assemble_some_inv _ b hb
  obtain rfl : ds = ds' := map_deliver_inj _ _ hmsg
  subst hbe
  obtain ⟨htw, htgw, hsdw, hfsd, hfromT, hfromS, hlen, henv⟩ := hInv
  refine ⟨by simpa [mkBatch] using hlen, by simpa [mkBatch] using hfsd,
    htw.2.2.2, ?_⟩
  intro i rd e hrd he
  have he' : s'.envelopes[i]? = some e := by simpa [mkBatch] using he
  obtain ⟨h1, h2, _, h4, h5, h6, _, _⟩ := henv i rd e hrd he'
  exact ⟨h1, h2, h4, h5, by simpa [mkBatch] using h6⟩

/-- Witness for C4 at the three-delivery input `w4ds` with type names
TyC, TyD, TyC. -/
theorem envelope_order_and_type_table_witness :
    w4ds.all (fun rd => rd.message.serOk) = true ∧
    ((∃ b, assemble (List.map WriterMsg.deliver w4ds) = some b) ∧
      ∀ b, assemble (List.map WriterMsg.deliver w4ds) = some b → orderConcl w4ds b) :=
  ⟨by decide, envelope_order_and_type_table w4ds (by decide)⟩

/-- Claim C10: every envelope of every batch the assembler produces records
serializer id 0; the `serializerID` variable is declared and never assigned,
so the zero value is what every `Serialize` call and envelope receives. -/
theorem serializer_id_always_zero (msg : List WriterMsg) (b : MessageBatch)
    (hb : assemble msg = some b) :
    ∀ e ∈ b.envelopes, e.serializerId = 0 := by
  obtain ⟨ds, s', hmsg, hInv, hbe⟩ := assemble_some_inv msg b hb
  subst hbe
  obtain ⟨_, _, _, _, _, _, hlen, henv⟩ := hInv
  intro e he
  have he2 : e ∈ s'.envelopes := by simpa [mkBatch] using he
  obtain ⟨i, hi⟩ := List.getElem?_of_mem he2
  have hilt : i < ds.length := by
    rw [← hlen]
    exact getElem?_some_lt hi
  have hrd : ds[i]? = some ds[i] := List.getElem?_eq_getElem hilt
  exact (henv i ds[i] e hrd hi).2.2.1

/-- Witness for C10 at the Scenario A input. -/
theorem serializer_id_always_zero_witness :
    assemble (List.map WriterMsg.deliver [w3d1, w3d2]) = some w3batch ∧
    ∀ e ∈ w3batch.envelopes, e.serializerId = 0 :=
  ⟨by decide,
    serializer_id_always_zero (List.map WriterMsg.deliver [w3d1, w3d2]) w3batch (by decide)⟩

/-! ### Claims C6 and C9 about batch dispatch -/

theorem assembleLoop_stopSelf_of_okBefore (msgs : List WriterMsg) :
    ∀ s : LoopState, WriterMsg.terminated ∈ msgs → okBefore msgs = true →
      assembleLoop 0 s msgs = LoopResult.stopSelf := by
  induction msgs with
  | nil =>
    intro s h _
    simp at h
  | cons m rest ih =>
    intro s hmem hok
    cases m with
    | terminated => rfl
    | deliver rd =>
      simp only [okBefore, Bool.and_eq_true] at hok
      have hser : Serialize rd.message 0 = some (rd.message.data, rd.message.typeName) := by
        simp [Serialize, hok.1]
      rcases hstep : assembleStep 0 s rd with _ | s1
      · exfalso
        simp [assembleStep, hser] at hstep
      · have hmem' : WriterMsg.terminated ∈ rest := by
          rcases List.mem_cons.mp hmem with hh | hh
          · exact WriterMsg.noConfusion hh
          · exact hh
        simp only [assembleLoop, hstep]
        exact ih s1 hmem' hok.2

theorem assembleLoop_ne_done_of_term (msgs : List WriterMsg) :
    ∀ (s s' : LoopState), WriterMsg.terminated ∈ msgs →
      assembleLoop 0 s msgs ≠ LoopResult.done s' := by
  induction msgs with
  | nil =>
    intro s s' h
    simp at h
  | cons m rest ih =>
    intro s s' hmem h
    cases m with
    | terminated => simp [assembleLoop] at h
    | deliver rd =>
      have hmem' : WriterMsg.terminated ∈ rest := by
        rcases List.mem_cons.mp hmem with hh | hh
        · exact WriterMsg.noConfusion hh
        · exact hh
      rcases hstep : assembleStep 0 s rd with _ | s1
      · simp [assembleLoop, hstep] at h
      · simp only [assembleLoop, hstep] at h
        exact ih s1 s' hmem' h

/-- Claim C6 (amended): a batch containing a terminated element is never
transmitted, and when the deliveries before the first terminated element all
serialize, the component requests its own stop and nothing else; deliveries
before the terminated element are still processed, and a serialization
failure there preempts the stop (see the counterexample). -/
theorem termination_precedence (address : String) (env : ConnectEnv) (s : WriterState)
    (msgs : List WriterMsg) (hterm : WriterMsg.terminated ∈ msgs) :
    termPrecConcl address env s msgs := by
  constructor
  · intro b hmem
    rcases hs : s.hasStream with _ | _ <;>
      rcases hl : assembleLoop 0 initLoopState msgs with _ | _ | s0
    · simp [receiveStep, hs, hl] at hmem
    · simp [receiveStep, hs, hl] at hmem
    · exact assembleLoop_ne_done_of_term msgs initLoopState s0 hterm hl
    · simp [receiveStep, hs, sendEnvelopes, hl] at hmem
    · simp [receiveStep, hs, sendEnvelopes, hl] at hmem
    · exact assembleLoop_ne_done_of_term msgs initLoopState s0 hterm hl
  · intro hok
    have hl := assembleLoop_stopSelf_of_okBefore msgs initLoopState hterm hok
    rcases hs : s.hasStream with _ | _
    · simp [receiveStep, hs, hl]
    · simp [receiveStep, hs, sendEnvelopes, hl]

/-- Witness for C6 at the batch `w6msgs` (one healthy delivery, then the
terminated element) in a fully healthy environment. -/
theorem termination_precedence_witness :
    WriterMsg.terminated ∈ w6msgs ∧
    okBefore w6msgs = true ∧
    termPrecConcl "remote:6" allOkEnv ⟨true, true⟩ w6msgs :=
  ⟨by decide, by decide,
    termination_precedence "remote:6" allOkEnv ⟨true, true⟩ w6msgs (by decide)⟩

/-- Claim C9: when the wire send of an assembled batch fails, `sendEnvelopes`
stashes the triggering batch message and panics, escalating to the external
supervisor; nothing is handled locally. -/
theorem send_failure_stash_then_crash (address : String) (env : ConnectEnv)
    (s : WriterState) (ds : List RemoteDeliver)
    (hs : s.hasStream = true) (hfail : env.batchSendOk = false)
    (hok : ds.all (fun rd => rd.message.serOk) = true) :
    receiveStep address env s (ActorMsg.batch (List.map WriterMsg.deliver ds)) =
      (s, [Effect.stash (List.map WriterMsg.deliver ds), Effect.crash], true) := by
  obtain ⟨s', hl⟩ := assembleLoop_done_of_ok ds initLoopState (List.all_eq_true.mp hok)
  simp [receiveStep, hs, sendEnvelopes, hl, hfail]

/-- Witness for C9 at the one-delivery batch `[okRd]` under `sendFailEnv`. -/
theorem send_failure_stash_then_crash_witness :
    sendFailEnv.batchSendOk = false ∧
    [okRd].all (fun rd => rd.message.serOk) = true ∧
    receiveStep "remote:9" sendFailEnv ⟨true, true⟩
        (ActorMsg.batch (List.map WriterMsg.deliver [okRd])) =
      (⟨true, true⟩, [Effect.stash (List.map WriterMsg.deliver [okRd]), Effect.crash], true) :=
  ⟨rfl, by decide,
    send_failure_stash_then_crash "remote:9" sendFailEnv ⟨true, true⟩ [okRd]
      rfl rfl (by decide)⟩

/-! ### Claims C7 and C8 about the handshake -/

theorem initializeInternal_result_none_iff (address : String) (env : ConnectEnv) :
    (initializeInternal address env).result = none ↔ connectOk env = true := by
  rcases env with ⟨d, r, so, recv, bo⟩
  rcases recv with _ | v
  · cases d <;> cases r <;> cases so <;> simp [initializeInternal, connectOk]
  · cases v <;> cases d <;> cases r <;> cases so <;> simp [initializeInternal, connectOk]

theorem mem_closeEffects (s : WriterState) (x : Effect) (hx : x ∈ closeEffects s) :
    x = Effect.closeStream ∨ x = Effect.closeConn := by
  rcases s with ⟨hc, hstr⟩
  cases hc <;> cases hstr <;> simp_all [closeEffects]

theorem runWriter_fail_effects (address : String) (env : ConnectEnv)
    (hfail : connectOk env = false) (msgs : List ActorMsg) :
    ∀ s : WriterState, s.hasStream = false →
      (∀ b, Effect.wireSend b ∉ (runWriter address env s msgs).2) ∧
      (∀ a, Effect.publish (RemoteEvent.endpointConnected a) ∉
        (runWriter address env s msgs).2) := by
  induction msgs with
  | nil =>
    intro s hs
    constructor <;> intro x hx <;> simp [runWriter] at hx
  | cons m ms ih =>
    intro s hs
    cases m with
    | started =>
      rcases hr : (initializeInternal address env).result with _ | e
      · exfalso
        rw [initializeInternal_result_none_iff] at hr
        rw [hr] at hfail
        exact Bool.noConfusion hfail
      · constructor <;> intro x hx <;> simp [runWriter, receiveStep, hr] at hx
    | stopped =>
      obtain ⟨ih1, ih2⟩ := ih s hs
      constructor <;> intro x hx <;>
        simp only [runWriter, receiveStep] at hx <;>
        rcases List.mem_append.mp hx with hcl | hrest
      · rcases mem_closeEffects s _ hcl with h | h <;> exact Effect.noConfusion h
      · exact ih1 x hrest
      · rcases mem_closeEffects s _ hcl with h | h <;> exact Effect.noConfusion h
      · exact ih2 x hrest
    | restarting =>
      obtain ⟨ih1, ih2⟩ := ih s hs
      constructor <;> intro x hx <;>
        simp only [runWriter, receiveStep] at hx <;>
        rcases List.mem_append.mp hx with hcl | hrest
      · rcases mem_closeEffects s _ hcl with h | h <;> exact Effect.noConfusion h
      · exact ih1 x hrest
      · rcases mem_closeEffects s _ hcl with h | h <;> exact Effect.noConfusion h
      · exact ih2 x hrest
    | endpointTerminatedMsg =>
      obtain ⟨ih1, ih2⟩ := ih s hs
      constructor <;> intro x hx <;>
        simp only [runWriter, receiveStep] at hx <;>
        rcases List.mem_append.mp hx with hcl | hrest
      · simp at hcl
      · exact ih1 x hrest
      · simp at hcl
      · exact ih2 x hrest
    | batch msgs' =>
      obtain ⟨ih1, ih2⟩ := ih s hs
      rcases hl : assembleLoop 0 initLoopState msgs' with _ | _ | s0
      · constructor <;> intro x hx <;>
          simp only [runWriter, receiveStep, hs, Bool.false_eq_true, if_false, hl] at hx <;>
          rcases List.mem_append.mp hx with hcl | hrest
        · simp at hcl
        · exact ih1 x hrest
        · simp at hcl
        · exact ih2 x hrest
      · constructor <;> intro x hx <;>
          simp [runWriter, receiveStep, hs, hl] at hx
      · constructor <;> intro x hx <;>
          simp [runWriter, receiveStep, hs, hl] at hx
    | systemAuto =>
      obtain ⟨ih1, ih2⟩ := ih s hs
      constructor <;> intro x hx <;>
        simp only [runWriter, receiveStep, List.nil_append] at hx
      · exact ih1 x hx
      · exact ih2 x hx
    | unknown =>
      obtain ⟨ih1, ih2⟩ := ih s hs
      constructor <;> intro x hx <;>
        simp only [runWriter, receiveStep, List.nil_append] at hx
      · exact ih1 x hx
      · exact ih2 x hx

/-- Claim C7: a wrong-variant handshake response makes connect return the
invalid-response error, publish no connected event, and leave no usable
state (no trace of the component transmits or publishes connected); the
connected event is published exactly when every handshake step succeeds. -/
theorem connect_atomicity (address : String) (env : ConnectEnv)
    (hwrong : env.recvResult = some HandshakeResponse.otherVariant) :
    connectAtomConcl address env := by
  have hfail : connectOk env = false := by
    simp [connectOk, hwrong]
  refine ⟨?_, ?_, ?_, ?_, fun env' => initializeInternal_result_none_iff address env', ?_⟩
  · rcases hr : (initializeInternal address env).result with _ | e
    · exfalso
      rw [initializeInternal_result_none_iff] at hr
      rw [hr] at hfail
      exact Bool.noConfusion hfail
    · rfl
  · rcases env with ⟨d, r, so, recv, bo⟩
    simp only at hwrong
    subst hwrong
    cases d <;> cases r <;> cases so <;> simp [initializeInternal]
  · intro msgs b
    exact (runWriter_fail_effects address env hfail msgs initWriterState rfl).1 b
  · intro msgs a
    exact (runWriter_fail_effects address env hfail msgs initWriterState rfl).2 a
  · intro env' hpub
    rcases env' with ⟨d, r, so, recv, bo⟩
    rcases recv with _ | v
    · cases d <;> cases r <;> cases so <;> simp_all [initializeInternal]
    · cases v <;> cases d <;> cases r <;> cases so <;> simp_all [initializeInternal]

/-- Witness for C7 at `wrongVariantEnv`. -/
theorem connect_atomicity_witness :
    wrongVariantEnv.recvResult = some HandshakeResponse.otherVariant ∧
    connectAtomConcl "remote:7" wrongVariantEnv :=
  ⟨rfl, connect_atomicity "remote:7" wrongVariantEnv rfl⟩

/-- Claim C8: if the handshake cannot succeed, no trace of the component ever
emits a wire send, and processing a start message crashes the incarnation at
once, so no batch is ever handed to the transport. -/
theorem handshake_gating (address : String) (env : ConnectEnv) (msgs : List ActorMsg)
    (hfail : connectOk env = false) :
    gatingConcl address env msgs := by
  constructor
  · exact (runWriter_fail_effects address env hfail msgs initWriterState rfl).1
  · intro rest
    rcases hr : (initializeInternal address env).result with _ | e
    · exfalso
      rw [initializeInternal_result_none_iff] at hr
      rw [hr] at hfail
      exact Bool.noConfusion hfail
    · simp [runWriter, receiveStep, hr]

/-- Witness for C8 at `noResponseEnv` (the handshake response never arrives)
with a trace that starts and then receives an application batch. -/
theorem handshake_gating_witness :
    connectOk noResponseEnv = false ∧
    gatingConcl "remote:8" noResponseEnv
      [ActorMsg.started, ActorMsg.batch (List.map WriterMsg.deliver [okRd])] :=
  ⟨by decide,
    handshake_gating "remote:8" noResponseEnv
      [ActorMsg.started, ActorMsg.batch (List.map WriterMsg.deliver [okRd])] (by decide)⟩

end ProtoRemote
